/-
Verification of the godesim ODE-simulation library (github.com/soypat/godesim).

Shallow embedding conventions:
- float64 arithmetic is modeled by exact rationals (ℚ); the adaptive step-size
  formulas that use math.Pow with fractional exponents are modeled over ℝ with
  real exponentiation.
- panics (throwf) are modeled by Option results (none = panic).
- Go slices backing the U vectors of states are modeled by an explicit heap
  (a list of arrays) so that aliasing between the live state and stored
  results is visible.  X vectors are modeled by value: in the embedded code
  every write to an X array targets an array freshly allocated by Clone or
  CloneBlank of the writing state itself, so X aliasing is never observable.
-/
import Mathlib

namespace Godesim


/-- Timespan (timespan.go): an iterable vector of evenly spaced time points.
The Go field named end is called stop here (end is a Lean keyword). -/
structure Timespan where
  start : ℚ
  stop : ℚ
  steps : ℤ
  stepLength : ℚ
deriving DecidableEq

/-- Timespan.Len (timespan.go): how many iterations expected. -/
def Timespan.lenGo (ts : Timespan) : ℤ := ts.steps

/-- Timespan.Dt (timespan.go): the step length of the simulation. -/
def Timespan.dt (ts : Timespan) : ℚ := ts.stepLength

/-- Timespan.End (timespan.go): greater limit of Timespan. -/
def Timespan.endGo (ts : Timespan) : ℚ := ts.stop

/-- Timespan.time (timespan.go): time corresponding to a step index. -/
def Timespan.timeAt (ts : Timespan) (step : ℤ) : ℚ :=
  (step : ℚ) * ts.stepLength + ts.start

/-- newTimespan (timespan.go): generates a timespan object for simulation.
Throwf panics are modeled as none.  The near-zero-step warning branch is
advisory (warnf, non-fatal) and does not affect the result, so it is not
modeled.  Over exact rationals the third check (resulting time step is 0)
can never fire when the first two pass; it is kept for faithfulness. -/
def newTimespan (tstart tend : ℚ) (tsteps : ℤ) : Option Timespan :=
  if tstart ≥ tend then none
  else if tsteps < 1 then none
  else
    let dt := (tend - tstart) / (tsteps : ℚ)
    if dt = 0 then none
    else some ⟨tstart, tend, tsteps, dt⟩

/-- NewTimespan (exported constructor, timespan.go lines 34 to 49): same
domain checks as newTimespan but without the zero-step check. -/
def NewTimespan (tstart tend : ℚ) (tsteps : ℤ) : Option Timespan :=
  if tstart ≥ tend then none
  else if tsteps < 1 then none
  else some ⟨tstart, tend, tsteps, (tend - tstart) / (tsteps : ℚ)⟩

/-! State model (package state).  Go map iteration details are modeled by
symbol lists: the symbol at position i of xsyms (resp. usyms) is the symbol
with ordinal index i in varmap (resp. inputmap). -/

/-- Symbol (state/state.go): references a simulation variable. -/
abbrev Symbol := String

/-- Heap of float-slice backing arrays for the U vectors of states. -/
abbrev Heap := List (List ℚ)

/-- Contents of the backing array at a heap location. -/
def Heap.readArr (H : Heap) (l : ℕ) : List ℚ := H.getD l []

/-- Overwrite the backing array at a heap location. -/
def Heap.writeArr (H : Heap) (l : ℕ) (a : List ℚ) : Heap := H.set l a

/-- State (state/state.go).  The x vector is held by value: in the embedded
code every write to an x array happens on an array freshly copied by Clone
or CloneBlank of the written state itself, so x aliasing is unobservable.
The u vector is a heap location, making the sharing of the backing array
between struct copies explicit. -/
structure HState where
  xsyms : List Symbol
  x : List ℚ
  usyms : List Symbol
  uloc : ℕ
  time : ℚ
deriving DecidableEq

/-- Diff and Input functions, func(state.State) float64 (state package):
the heap argument lets the function read the U vector of its argument. -/
abbrev DiffFn := Heap → HState → ℚ

/-- Go map lookup varmap[sym] or inputmap[sym], returning the ordinal index. -/
def idxOf : List Symbol → Symbol → Option ℕ
  | [], _ => none
  | b :: t, a => if a = b then some 0 else (idxOf t a).map (fun i => i + 1)

/-- State.Time (state/state.go). -/
def HState.timeGo (s : HState) : ℚ := s.time

/-- State.SetTime (state/state.go). -/
def HState.setTimeGo (s : HState) (t : ℚ) : HState := { s with time := t }

/-- State.X (state/state.go): read a state variable; panic (none) if the
symbol does not exist. -/
def HState.xRead (s : HState) (sym : Symbol) : Option ℚ :=
  (idxOf s.xsyms sym).bind (fun i => s.x.get? i)

/-- State.U (state/state.go): read a state input through the heap. -/
def HState.uRead (H : Heap) (s : HState) (sym : Symbol) : Option ℚ :=
  (idxOf s.usyms sym).bind (fun i => (H.readArr s.uloc).get? i)

/-- State.XEqual (state/state.go): set a symbol to a value, creating it with
ordinal index len(x) if absent (xCreateIfNotExist appends a zero then the
value is stored). -/
def HState.xEqual (s : HState) (sym : Symbol) (v : ℚ) : HState :=
  match idxOf s.xsyms sym with
  | some i => { s with x := s.x.set i v }
  | none => { s with xsyms := s.xsyms ++ [sym], x := (s.x ++ [0]).set s.x.length v }

/-- State.UEqual (state/state.go): set an input symbol to a value through the
heap, creating it if absent (uCreateIfNotExist).  Go append may reallocate
the backing array on growth; growth is modeled in place, which is
observationally equal because no embedded fragment creates an input symbol
on a shared array. -/
def HState.uEqual (H : Heap) (s : HState) (sym : Symbol) (v : ℚ) : Heap × HState :=
  match idxOf s.usyms sym with
  | some i => (H.writeArr s.uloc ((H.readArr s.uloc).set i v), s)
  | none =>
      (H.writeArr s.uloc (((H.readArr s.uloc) ++ [0]).set s.usyms.length v),
        { s with usyms := s.usyms ++ [sym] })

/-- State.Clone (state/state.go lines 118 to 126): the maps are shared, the
x and u vectors are copied (XVector and UVector return copies); the copy of
u is a fresh backing array. -/
def cloneH (H : Heap) (s : HState) : Heap × HState :=
  (H ++ [H.readArr s.uloc], { s with uloc := H.length })

/-- State.CloneBlank (state/state.go lines 130 to 138): duplicate of the
state at time t with the X vector zeroed; the U vector is a fresh copy. -/
def cloneBlankH (H : Heap) (s : HState) (t : ℚ) : Heap × HState :=
  (H ++ [H.readArr s.uloc],
    { xsyms := s.xsyms, x := List.replicate s.x.length 0,
      usyms := s.usyms, uloc := H.length, time := t })

/-! Vector arithmetic on the X vectors (state/fileops.go, backed by
gonum/floats).  The gonum routines panic when slice lengths differ, modeled
as none. -/

/-- state.Add (fileops.go): dst = dst + s elementwise on X. -/
def addH (dst s : HState) : Option HState :=
  if dst.x.length = s.x.length then
    some { dst with x := dst.x.zipWith (fun a b => a + b) s.x }
  else none

/-- state.AddScaled (fileops.go): dst = dst + alpha * s elementwise on X. -/
def addScaledH (dst : HState) (alpha : ℚ) (s : HState) : Option HState :=
  if dst.x.length = s.x.length then
    some { dst with x := dst.x.zipWith (fun a b => a + alpha * b) s.x }
  else none

/-- state.AddScaledTo (fileops.go): dst = y + alpha * s elementwise on X. -/
def addScaledToH (dst y : HState) (alpha : ℚ) (s : HState) : Option HState :=
  if dst.x.length = y.x.length ∧ y.x.length = s.x.length then
    some { dst with x := y.x.zipWith (fun a b => a + alpha * b) s.x }
  else none

/-- StateDiff (simulation.go lines 208 to 218): clone S, panic if the number
of Diff functions differs from the number of X symbols, otherwise store
F[i](S) under the i-th X symbol of S. -/
def stateDiffH (H : Heap) (F : List DiffFn) (S : HState) : Option (Heap × HState) :=
  let p := cloneH H S
  if F.length ≠ S.xsyms.length then none
  else
    some (p.1, (F.zip S.xsyms).foldl (fun d fs => d.xEqual fs.2 (fs.1 p.1 S)) p.2)

/-! RK4 solver (algorithms.go lines 15 to 44). -/

/-- One sub-step of RK4Solver: the loop body computing states[i+1] from
states[i].  Heap allocations mirror the CloneBlank, Clone calls of the
source; arithmetic-length panics and StateDiff panics propagate as none. -/
def rk4SubStep (H : Heap) (F : List DiffFn) (h : ℚ) (s : HState) :
    Option (Heap × HState) := do
  let pb := cloneBlankH H s (s.time + (0.5 : ℚ) * h)
  let pc := cloneBlankH pb.1 s (s.time + (0.5 : ℚ) * h)
  let pd := cloneBlankH pc.1 s (s.time + h)
  let pa ← stateDiffH pd.1 F s
  let b1 ← addScaledToH pb.2 s ((0.5 : ℚ) * h) pa.2
  let pb2 ← stateDiffH pa.1 F b1
  let c1 ← addScaledToH pc.2 s ((0.5 : ℚ) * h) pb2.2
  let pc2 ← stateDiffH pb2.1 F c1
  let d1 ← addScaledToH pd.2 s h pc2.2
  let pd2 ← stateDiffH pc2.1 F d1
  let a2 ← addH pa.2 pd2.2
  let b2 ← addH pb2.2 pc2.2
  let a3 ← addScaledH a2 2 b2
  let pnext := cloneH pd2.1 s
  let next ← addScaledH pnext.2 (h * (1 / 6 : ℚ)) a3
  some (pnext.1, next.setTimeGo (h + s.time))

/-- Iterated sub-steps of RK4Solver (the outer for loop). -/
def rk4Loop (F : List DiffFn) (h : ℚ) : ℕ → Heap → HState → Option (Heap × List HState)
  | 0, H, _ => some (H, [])
  | Nat.succ n, H, s => do
      let p ← rk4SubStep H F h s
      let q ← rk4Loop F h n p.1 p.2
      some (q.1, p.2 :: q.2)

/-- RK4Solver (algorithms.go): h is Dt divided by Algorithm.Steps, states[0]
is a clone of the current state, followed by Algorithm.Steps sub-steps. -/
def rk4SolverH (H : Heap) (F : List DiffFn) (dt : ℚ) (algSteps : ℕ) (s : HState) :
    Option (Heap × List HState) := do
  let p := cloneH H s
  let q ← rk4Loop F (dt / (algSteps : ℚ)) algSteps p.1 p.2
  some (q.1, p.2 :: q.2)

/-! Specification-side RK4 stages.  Modelled from the claim wording: the
textbook scheme evaluates the Diff map on intermediate states stamped with
the fractional times t, t + h/2, t + h/2, t + h. -/

/-- Vector of Diff evaluations on a state. -/
def diffVec (H : Heap) (F : List DiffFn) (s : HState) : List ℚ :=
  F.map (fun f => f H s)

/-- Textbook RK4 stage state: x shifted by alpha times a slope vector, time
advanced by dt. -/
def rk4Stage (s : HState) (dt alpha : ℚ) (k : List ℚ) : HState :=
  { s with time := s.time + dt, x := s.x.zipWith (fun a b => a + alpha * b) k }

/-- Slope k1 of the textbook scheme (evaluated at time t). -/
def rk4K1 (H : Heap) (F : List DiffFn) (s : HState) : List ℚ := diffVec H F s

/-- Second stage state (time t + h/2). -/
def rk4Stage2 (H : Heap) (F : List DiffFn) (h : ℚ) (s : HState) : HState :=
  rk4Stage s (h / 2) (h / 2) (rk4K1 H F s)

/-- Slope k2. -/
def rk4K2 (H : Heap) (F : List DiffFn) (h : ℚ) (s : HState) : List ℚ :=
  diffVec H F (rk4Stage2 H F h s)

/-- Third stage state (time t + h/2). -/
def rk4Stage3 (H : Heap) (F : List DiffFn) (h : ℚ) (s : HState) : HState :=
  rk4Stage s (h / 2) (h / 2) (rk4K2 H F h s)

/-- Slope k3. -/
def rk4K3 (H : Heap) (F : List DiffFn) (h : ℚ) (s : HState) : List ℚ :=
  diffVec H F (rk4Stage3 H F h s)

/-- Fourth stage state (time t + h). -/
def rk4Stage4 (H : Heap) (F : List DiffFn) (h : ℚ) (s : HState) : HState :=
  rk4Stage s h h (rk4K3 H F h s)

/-- Slope k4. -/
def rk4K4 (H : Heap) (F : List DiffFn) (h : ℚ) (s : HState) : List ℚ :=
  diffVec H F (rk4Stage4 H F h s)

/-! Simulation driver (simulation.go, simulation_internal.go). -/

/-- Simulation: the fields used by the embedded fragments.  The Solver
function field is modeled by the flag solverSet (the nil check of verify)
together with the default RK4 solver in the loop; Algorithm.Steps is
algSteps; Symbols.NoOrdering is noOrdering; the change and inputs maps are
association lists in iteration order; diffs is state.Diffs, whose entries
may be nil (none) when setDiffs looks up a missing key. -/
structure Sim where
  tspan : Timespan
  state : HState
  currentStep : ℤ
  results : List HState
  change : List (Symbol × DiffFn)
  diffs : List (Option DiffFn)
  inputs : List (Symbol × DiffFn)
  solverSet : Bool
  domain : String
  algSteps : ℤ
  noOrdering : Bool

/-- Simulation.setInputs (simulation_internal.go lines 104 to 111): recompute
every U value of the live state in place; the early return on an empty input
map coincides with the empty fold. -/
def setInputsH (H : Heap) (ins : List (Symbol × DiffFn)) (s : HState) : Heap × HState :=
  ins.foldl (fun p sf => HState.uEqual p.1 p.2 sf.1 (sf.2 p.1 p.2)) (H, s)

/-- Tail of the Begin loop body (simulation.go lines 127 to 130): append
states[1:] to the result history, set the live state to the last sub-state
(a struct copy sharing the u backing array), then recompute the inputs on
the live state.  The solver always returns a nonempty slice, so the
getLastD default is never used in a run. -/
def beginTail (H : Heap) (sim : Sim) (states : List HState) : Heap × Sim :=
  let results := sim.results ++ states.tail
  let st := states.getLastD sim.state
  let p := setInputsH H sim.inputs st
  (p.1, { sim with results := results, state := p.2 })

/-- Simulation.IsRunning (simulation_internal.go lines 88 to 93). -/
def isRunningSim (sim : Sim) : Bool :=
  if sim.currentStep < 0 then false
  else decide (sim.tspan.stop > sim.state.time + sim.tspan.stepLength * (0.9 : ℚ))

/-- Collect the Diffs entries; a nil entry (none) would panic inside the
solver when called, surfaced here as none. -/
def seqDiffs : List (Option DiffFn) → Option (List DiffFn)
  | [] => some []
  | none :: _ => none
  | some f :: t => (seqDiffs t).map (fun l => f :: l)

/-- One iteration of the Begin loop (simulation.go lines 124 to 136) with the
default RK4 solver; logging is off, the step delay is a no-op and no event
handlers are registered (eventsOn is false). -/
def beginIteration (H : Heap) (sim : Sim) : Option (Heap × Sim) := do
  let sim1 := { sim with currentStep := sim.currentStep + 1 }
  let F ← seqDiffs sim1.diffs
  let p ← rk4SolverH H F sim1.tspan.stepLength sim1.algSteps.toNat sim1.state
  some (beginTail p.1 sim1 p.2)

/-- The Begin driver loop, fuel bounded (none on fuel exhaustion; the
verified claims never reach that case). -/
def beginLoop : ℕ → Heap → Sim → Option (Heap × Sim)
  | 0, H, sim => if isRunningSim sim then none else some (H, sim)
  | Nat.succ n, H, sim =>
      if isRunningSim sim then do
        let p ← beginIteration H sim
        beginLoop n p.1 p.2
      else some (H, sim)

/-- Concrete one-variable, one-input simulation state for the C3 run. -/
def c3state : HState := HState.mk ["x"] [0] ["u"] 0 0

/-- Concrete simulation: dx/dt = 1 on the timespan 0 to 1 in one step, with
input u recomputed as the current time; the initial state is already in the
result history exactly as Begin stores it before the loop. -/
def c3sim : Sim :=
  Sim.mk ⟨0, 1, 1, 1⟩ c3state 0 [c3state] [("x", fun _ _ => 1)]
    [some (fun _ _ => 1)] [("u", fun _ st => st.timeGo)] true "time" 1 true

/-- The solver call of the first Begin iteration in isolation. -/
def c3mid : Option (Heap × List HState) :=
  rk4SolverH [[5]] [fun _ _ => 1] 1 1 c3state

/-- The full first Begin iteration (solver, append, live-state assignment,
setInputs). -/
def c3run : Option (Heap × Sim) := beginIteration [[5]] c3sim

/-! Pre-run verification (simulation_internal.go). -/

/-- verifyConfig (simulation_internal.go): empty domain name or an algorithm
step count below 1 is fatal. -/
def verifyConfig (sim : Sim) : Option Unit :=
  if sim.domain = "" then none
  else if sim.algSteps < 1 then none
  else some ()

/-- Simulation.verify (simulation_internal.go lines 46 to 76): fails when no
X symbols are defined, the step vector is empty, the Solver is nil, or the
NaN-probe consistency check finds a Diff key that is not an X symbol of the
state (ConsistencyX marks each such key with NaN and HasNaN aborts). -/
def verifySim (sim : Sim) : Option Unit :=
  if sim.state.xsyms.length = 0 then none
  else if sim.tspan.steps = 0 then none
  else if sim.solverSet = false then none
  else if (sim.change.map Prod.fst).all (fun k => decide (k ∈ sim.state.xsyms))
    then some () else none

/-- state.New (state/state.go): empty state; the u vector gets a fresh empty
backing array. -/
def stateNewH (H : Heap) : Heap × HState :=
  (H ++ [[]], HState.mk [] [] [] H.length 0)

/-- Insertion step of sort.Strings, ascending. -/
def insertSym (a : Symbol) : List Symbol → List Symbol
  | [] => [a]
  | b :: t => if a < b then a :: b :: t else b :: insertSym a t

/-- sort.Strings (ascending insertion sort; only the permutation property is
used by the theorems). -/
def sortSyms : List Symbol → List Symbol
  | [] => []
  | a :: t => insertSym a (sortSyms t)

/-- The X-copy loop of orderedState: newS.XEqual(sym, s.X(sym)) over the
sorted symbols; a failed X lookup panics. -/
def buildX (src : HState) : List Symbol → HState → Option HState
  | [], acc => some acc
  | sym :: rest, acc =>
      (src.xRead sym).bind (fun v => buildX src rest (acc.xEqual sym v))

/-- The U-copy loop of orderedState: newS.UEqual(sym, s.U(sym)). -/
def buildU (src : HState) : List Symbol → Heap → HState → Option (Heap × HState)
  | [], H, acc => some (H, acc)
  | sym :: rest, H, acc =>
      (src.uRead H sym).bind (fun v =>
        buildU src rest (HState.uEqual H acc sym v).1 (HState.uEqual H acc sym v).2)

/-- orderedState (simulation_internal.go lines 113 to 131): a new state with
lexicographically sorted X symbols, copied X and U values and the same
time. -/
def orderedStateH (H : Heap) (s : HState) : Option (Heap × HState) := do
  let n1 ← buildX s (sortSyms s.xsyms) (stateNewH H).2
  let q ← buildU s s.usyms (stateNewH H).1 n1
  some (q.1, q.2.setTimeGo s.time)

/-- Go map lookup change[sym] (nil for a missing key). -/
def lookupChange (change : List (Symbol × DiffFn)) (sym : Symbol) : Option DiffFn :=
  (change.find? (fun p => p.1 == sym)).map Prod.snd

/-- Simulation.setDiffs (simulation_internal.go lines 133 to 138): Diffs has
length len(change); the loop writes one entry per X symbol in order and
panics with an index out of range when there are more X symbols than change
entries; surplus change entries leave nil Diffs entries behind. -/
def setDiffsSim (sim : Sim) : Option (List (Option DiffFn)) :=
  if sim.state.xsyms.length > sim.change.length then none
  else some (sim.state.xsyms.map (fun sym => lookupChange sim.change sym)
    ++ List.replicate (sim.change.length - sim.state.xsyms.length) none)

/-- Simulation.verifyPreBegin (simulation_internal.go lines 32 to 44):
config check, verify, the non-empty-results check, optional symbol
reordering, then setDiffs. -/
def verifyPreBeginH (H : Heap) (sim : Sim) : Option (Heap × Sim) := do
  let _ ← verifyConfig sim
  let _ ← verifySim sim
  if sim.results.length > 0 then none
  else do
    let p ← (if sim.noOrdering = false then orderedStateH H sim.state
      else some (H, sim.state))
    let ds ← setDiffsSim { sim with state := p.2 }
    some (p.1, { sim with state := p.2, diffs := ds })

/-- Simulation.Begin (simulation.go lines 104 to 140): setInputs, pre-run
verification, result-history initialization with the live state, then the
fuel-bounded driver loop.  Failure (none) anywhere in verification means the
loop is never entered. -/
def beginH (fuel : ℕ) (H : Heap) (sim : Sim) : Option (Heap × Sim) := do
  let p0 := setInputsH H sim.inputs sim.state
  let q ← verifyPreBeginH p0.1 { sim with state := p0.2 }
  let sim2 := { q.2 with results := [q.2.state] }
  beginLoop fuel q.1 sim2

instance : Nonempty HState := ⟨⟨[], [], [], 0, 0⟩⟩

instance : Nonempty Sim :=
  ⟨⟨⟨0, 0, 0, 0⟩, ⟨[], [], [], 0, 0⟩, 0, [], [], [], [], false, "", 0, false⟩⟩

/-! NewStepLength event (events.go lines 51 to 60). -/

/-- Simulation.CurrentTime (simulation.go): the time of the last stored
result (an empty history would panic on the index). -/
def currentTimeSim (sim : Sim) : Option ℚ :=
  sim.results.getLast?.map HState.timeGo

/-- NewStepLength event handler (events.go lines 51 to 60): on a running
simulation, recompute the Timespan as ceil((End - CurrentTime)/h) steps of
the desired length h starting at the current time; SetTimespan calls
newTimespan, whose panic propagates.  math.Ceil followed by Go int
conversion of the integral value is the integer ceiling. -/
def newStepLengthEv (h : ℚ) (sim : Sim) : Option Sim :=
  if isRunningSim sim then do
    let t ← currentTimeSim sim
    let ts ← newTimespan t
      (t + ((⌈(sim.tspan.endGo - t) / h⌉ : ℤ) : ℚ) * h)
      ⌈(sim.tspan.endGo - t) / h⌉
    some { sim with tspan := ts }
  else some sim

/-- Concrete state for the C1 run: one X symbol, current time one half. -/
def c1state : HState := HState.mk ["x"] [0] [] 0 (1/2)

/-- Concrete simulation for C1: domain 0 to 1 in ten steps of one tenth,
five steps into the run. -/
def c1sim : Sim :=
  Sim.mk ⟨0, 1, 10, 1/10⟩ c1state 5 [c1state] [] [] [] true "time" 1 true

/-! Adaptive step-size control (algorithms.go).  The float64 expressions of
the adaptive blocks are modeled over ℝ; math.Pow on the nonnegative error
quotient is real exponentiation.  maxErr stands for state.Max of the
absolute error estimate vector. -/

/-- The adaptive fields of Config.Algorithm (simulation.go): Error.Max,
Step.Min and Step.Max. -/
structure AlgCfg where
  errMax : ℝ
  stepMin : ℝ
  stepMax : ℝ

/-- Adaptive stepping is active (algorithms.go): Error.Max above 0, Step.Min
above 0 and Step.Max above Step.Min. -/
def adaptiveEnabled (c : AlgCfg) : Prop :=
  c.errMax > 0 ∧ c.stepMin > 0 ∧ c.stepMax > c.stepMin

/-- Step-size update of RKF45Solver (algorithms.go):
hnew = min(max(0.9 h Pow(errQuot, 0.2), Step.Min), Step.Max). -/
noncomputable def hnewRKF45 (c : AlgCfg) (h maxErr : ℝ) : ℝ :=
  min (max (0.9 * h * (c.errMax / maxErr) ^ (0.2 : ℝ)) c.stepMin) c.stepMax

/-- Step-size update of DormandPrinceSolver (algorithms.go): textually the
same expression as in RKF45Solver. -/
noncomputable def hnewDormandPrince (c : AlgCfg) (h maxErr : ℝ) : ℝ :=
  min (max (0.9 * h * (c.errMax / maxErr) ^ (0.2 : ℝ)) c.stepMin) c.stepMax

/-- Step-size update of RKF78Solver (algorithms.go): scale =
min(max(0.8 Abs(Pow(errQuot, 1/7)), 0.125), 4.0), then
hnew = min(max(h scale, Step.Min), Step.Max). -/
noncomputable def hnewRKF78 (c : AlgCfg) (h maxErr : ℝ) : ℝ :=
  min (max (h * min (max (0.8 * |(c.errMax / maxErr) ^ ((1 : ℝ) / 7)|) 0.125) 4.0)
    c.stepMin) c.stepMax

/-- Modelled from the spec: the clamp(x, lo, hi) notation of the step-size
update rule. -/
noncomputable def specClamp (x lo hi : ℝ) : ℝ := min (max x lo) hi

/-- Loop state of an embedded adaptive solver: the sub-step index i, the
current sub-step length h and the self-mutated Algorithm.Steps. -/
structure RKLoopState where
  idx : ℤ
  h : ℝ
  steps : ℤ

/-- The adaptive block of RKF45Solver (algorithms.go) as one loop iteration:
compute errRatio and hnew, rescale Algorithm.Steps (int conversion of the
value bounded below by 1.0 is the floor), assign h = hnew; on rejection
(errRatio below 1 and h not clamped to Step.Min) the index is decremented
and the loop increment restores it (net: unchanged), otherwise the for
update advances it. -/
noncomputable def rkf45AdaptiveIter (c : AlgCfg) (maxErr : ℝ)
    (s : RKLoopState) : RKLoopState :=
  if c.errMax / maxErr < 1
      ∧ min (max (0.9 * s.h * (c.errMax / maxErr) ^ (0.2 : ℝ)) c.stepMin) c.stepMax
        ≠ c.stepMin then
    ⟨s.idx,
      min (max (0.9 * s.h * (c.errMax / maxErr) ^ (0.2 : ℝ)) c.stepMin) c.stepMax,
      ⌊max ((s.steps : ℝ) * (s.h /
        min (max (0.9 * s.h * (c.errMax / maxErr) ^ (0.2 : ℝ)) c.stepMin) c.stepMax)) 1⌋⟩
  else
    ⟨s.idx + 1,
      min (max (0.9 * s.h * (c.errMax / maxErr) ^ (0.2 : ℝ)) c.stepMin) c.stepMax,
      ⌊max ((s.steps : ℝ) * (s.h /
        min (max (0.9 * s.h * (c.errMax / maxErr) ^ (0.2 : ℝ)) c.stepMin) c.stepMax)) 1⌋⟩

/-- The adaptive block of DormandPrinceSolver (algorithms.go): textually the
same iteration as in RKF45Solver. -/
noncomputable def dpAdaptiveIter (c : AlgCfg) (maxErr : ℝ)
    (s : RKLoopState) : RKLoopState :=
  if c.errMax / maxErr < 1
      ∧ min (max (0.9 * s.h * (c.errMax / maxErr) ^ (0.2 : ℝ)) c.stepMin) c.stepMax
        ≠ c.stepMin then
    ⟨s.idx,
      min (max (0.9 * s.h * (c.errMax / maxErr) ^ (0.2 : ℝ)) c.stepMin) c.stepMax,
      ⌊max ((s.steps : ℝ) * (s.h /
        min (max (0.9 * s.h * (c.errMax / maxErr) ^ (0.2 : ℝ)) c.stepMin) c.stepMax)) 1⌋⟩
  else
    ⟨s.idx + 1,
      min (max (0.9 * s.h * (c.errMax / maxErr) ^ (0.2 : ℝ)) c.stepMin) c.stepMax,
      ⌊max ((s.steps : ℝ) * (s.h /
        min (max (0.9 * s.h * (c.errMax / maxErr) ^ (0.2 : ℝ)) c.stepMin) c.stepMax)) 1⌋⟩

/-! Theorems. -/

theorem newTimespan_pos {s e : ℚ} {n : ℤ} (hse : s < e) (hn : 1 ≤ n) :
    newTimespan s e n = some ⟨s, e, n, (e - s) / (n : ℚ)⟩ := by
  have hnq : (0 : ℚ) < (n : ℚ) := by exact_mod_cast lt_of_lt_of_le Int.zero_lt_one hn
  have hdt : (0 : ℚ) < (e - s) / (n : ℚ) := div_pos (sub_pos.mpr hse) hnq
  unfold newTimespan
  rw [if_neg (show ¬ s ≥ e from not_le.mpr hse),
    if_neg (show ¬ n < 1 from not_lt.mpr hn)]
  simp only []
  rw [if_neg (ne_of_gt hdt)]

theorem NewTimespan_pos {s e : ℚ} {n : ℤ} (hse : s < e) (hn : 1 ≤ n) :
    NewTimespan s e n = some ⟨s, e, n, (e - s) / (n : ℚ)⟩ := by
  unfold NewTimespan
  rw [if_neg (show ¬ s ≥ e from not_le.mpr hse),
    if_neg (show ¬ n < 1 from not_lt.mpr hn)]

/-- C2: Timespan construction (NewTimespan and newTimespan) fails exactly when
start is at least end or steps is below 1; otherwise it succeeds with
stepLength = (end-start)/steps, Len() = steps and End() = end.  (Over the
exact-rational model of float64 the internal zero-step check of newTimespan is
unreachable once the first two checks pass.) -/
theorem C2_timespan_construction (s e : ℚ) (n : ℤ) :
    (newTimespan s e n = none ↔ (e ≤ s ∨ n < 1))
    ∧ (NewTimespan s e n = none ↔ (e ≤ s ∨ n < 1))
    ∧ (s < e → 1 ≤ n →
        newTimespan s e n = some ⟨s, e, n, (e - s) / (n : ℚ)⟩
        ∧ NewTimespan s e n = some ⟨s, e, n, (e - s) / (n : ℚ)⟩
        ∧ Timespan.stepLength ⟨s, e, n, (e - s) / (n : ℚ)⟩ = (e - s) / (n : ℚ)
        ∧ Timespan.lenGo ⟨s, e, n, (e - s) / (n : ℚ)⟩ = n
        ∧ Timespan.endGo ⟨s, e, n, (e - s) / (n : ℚ)⟩ = e) := by
  refine ⟨?_, ?_, ?_⟩
  · rcases le_or_lt e s with h | h
    · simp [newTimespan, h]
    · rcases lt_or_le n 1 with hn | hn
      · simp [newTimespan, not_le.mpr h, hn]
      · rw [newTimespan_pos h hn]
        simp [not_le.mpr h, not_lt.mpr hn]
  · rcases le_or_lt e s with h | h
    · simp [NewTimespan, h]
    · rcases lt_or_le n 1 with hn | hn
      · simp [NewTimespan, not_le.mpr h, hn]
      · rw [NewTimespan_pos h hn]
        simp [not_le.mpr h, not_lt.mpr hn]
  · intro hse hn
    exact ⟨newTimespan_pos hse hn, NewTimespan_pos hse hn, rfl, rfl, rfl⟩

/-- C2 witness: construction at start 0, end 1, steps 2. -/
theorem C2_timespan_construction_witness :
    (0 : ℚ) < 1 ∧ (1 : ℤ) ≤ 2 ∧
      newTimespan 0 1 2 = some ⟨0, 1, 2, (1 - 0) / ((2 : ℤ) : ℚ)⟩ :=
  ⟨by norm_num, by norm_num,
    ((C2_timespan_construction 0 1 2).2.2 (by norm_num) (by norm_num)).1⟩

/-! Heap access lemmas. -/

theorem readArr_append_left (H : Heap) (t : Heap) (l : ℕ) (hl : l < H.length) :
    (H ++ t).readArr l = H.readArr l := by
  unfold Heap.readArr
  induction H generalizing l with
  | nil => exact absurd hl (by simp)
  | cons a Hs ih =>
    cases l with
    | zero => rfl
    | succ m => exact ih m (by simpa using hl)

theorem readArr_append_self (H : Heap) (a : List ℚ) :
    (H ++ [a]).readArr H.length = a := by
  unfold Heap.readArr
  induction H with
  | nil => rfl
  | cons b Hs ih => simp [ih]

/-- Appending a copy of the array read at l leaves the read at l unchanged,
also when l is the location of the appended copy or is out of range. -/
theorem readArr_append_eq (H : Heap) (a : List ℚ) (l : ℕ)
    (ha : Heap.readArr H l = a) : Heap.readArr (H ++ [a]) l = a := by
  rcases lt_trichotomy l H.length with hl | hl | hl
  · rw [readArr_append_left H [a] l hl, ha]
  · subst hl
    exact readArr_append_self H a
  · have h1 : Heap.readArr (H ++ [a]) l = [] := by
      unfold Heap.readArr
      rw [List.getD_eq_getElem?_getD, List.getElem?_eq_none (by
        simp only [List.length_append, List.length_cons, List.length_nil]
        omega)]
      rfl
    have h2 : Heap.readArr H l = [] := by
      unfold Heap.readArr
      rw [List.getD_eq_getElem?_getD, List.getElem?_eq_none (le_of_lt hl)]
      rfl
    rw [h1, ← ha, h2]

theorem readArr_writeArr_ne (H : Heap) (l l2 : ℕ) (a : List ℚ) (hne : l2 ≠ l) :
    (H.writeArr l a).readArr l2 = H.readArr l2 := by
  unfold Heap.readArr Heap.writeArr
  rcases lt_or_le l H.length with hl | hl
  · rcases lt_or_le l2 H.length with hl2 | hl2
    · rw [List.getD_eq_getElem?_getD, List.getD_eq_getElem?_getD,
        List.getElem?_set_ne (fun h => hne h.symm)]
    · rw [List.getD_eq_getElem?_getD, List.getD_eq_getElem?_getD,
        List.getElem?_eq_none (by simpa using hl2),
        List.getElem?_eq_none (by simpa using hl2)]
  · rw [List.set_eq_of_length_le hl]

theorem readArr_writeArr_self (H : Heap) (l : ℕ) (a : List ℚ) (hl : l < H.length) :
    (H.writeArr l a).readArr l = a := by
  unfold Heap.readArr Heap.writeArr
  rw [List.getD_eq_getElem?_getD, List.getElem?_set_self (by simpa using hl)]
  rfl

/-! Lookup lemmas for idxOf. -/

theorem idxOf_append_cons_self (P r : List Symbol) (a : Symbol) (ha : a ∉ P) :
    idxOf (P ++ a :: r) a = some P.length := by
  induction P with
  | nil => simp [idxOf]
  | cons b t ih =>
    have hab : a ≠ b := fun h => ha (by simp [h])
    show (if a = b then some 0 else (idxOf (t ++ a :: r) a).map (fun i => i + 1))
      = some (b :: t).length
    rw [if_neg hab, ih (fun h => ha (List.mem_cons_of_mem b h))]
    rfl

theorem idxOf_eq_none_of_not_mem (l : List Symbol) (a : Symbol) (ha : a ∉ l) :
    idxOf l a = none := by
  induction l with
  | nil => rfl
  | cons b t ih =>
    have hab : a ≠ b := fun h => ha (by simp [h])
    simp [idxOf, if_neg hab, ih (fun h => ha (List.mem_cons_of_mem b h))]

/-- Characterization of the XEqual fold inside StateDiff: writing the values
f(S) under the symbols of a nodup suffix of the symbol table fills exactly
the corresponding segment of the x vector. -/
theorem foldl_xEqual_zip (HH : Heap) (S : HState) :
    ∀ (fl : List DiffFn) (sl P : List Symbol) (xP xS : List ℚ) (d : HState),
      d.xsyms = P ++ sl → d.x = xP ++ xS → xP.length = P.length →
      xS.length = sl.length → fl.length = sl.length → (P ++ sl).Nodup →
      (fl.zip sl).foldl (fun d2 fs => d2.xEqual fs.2 (fs.1 HH S)) d
        = { d with x := xP ++ fl.map (fun f => f HH S) } := by
  intro fl
  induction fl with
  | nil =>
    intro sl P xP xS d hsy hx hxP hxS hfl _
    have hxSnil : xS = [] := List.length_eq_zero.mp (by rw [hxS, ← hfl]; rfl)
    rw [hxSnil] at hx
    simp only [List.zip_nil_left, List.foldl_nil, List.map_nil]
    rw [← hx]
  | cons f ft ih =>
    intro sl P xP xS d hsy hx hxP hxS hfl hnd
    cases sl with
    | nil => exact absurd hfl (by simp)
    | cons sym st =>
      cases xS with
      | nil => exact absurd hxS (by simp)
      | cons v0 vt =>
        have hsymP : sym ∉ P := fun hmem =>
          (List.disjoint_of_nodup_append hnd) hmem (by simp)
        have hstep : d.xEqual sym (f HH S)
            = { d with x := (xP ++ [f HH S]) ++ vt } := by
          unfold HState.xEqual
          rw [hsy, idxOf_append_cons_self P st sym hsymP]
          simp only [hx, List.set_append, if_neg (by omega : ¬ P.length < xP.length)]
          rw [hxP, Nat.sub_self]
          simp
        have hnd2 : ((P ++ [sym]) ++ st).Nodup := by
          rw [← List.append_cons]; exact hnd
        have := ih st (P ++ [sym]) (xP ++ [f HH S]) vt
          ({ d with x := (xP ++ [f HH S]) ++ vt })
          (by rw [hsy, List.append_cons]) rfl
          (by simp [hxP]) (by simpa using hxS) (by simpa using hfl) hnd2
        calc ((f :: ft).zip (sym :: st)).foldl
              (fun d2 fs => d2.xEqual fs.2 (fs.1 HH S)) d
            = (ft.zip st).foldl (fun d2 fs => d2.xEqual fs.2 (fs.1 HH S))
                (d.xEqual sym (f HH S)) := rfl
          _ = { d with x := xP ++ (f :: ft).map (fun g => g HH S) } := by
              rw [hstep, this]
              simp

/-- Closed form of StateDiff on a well-formed state. -/
theorem stateDiffH_eq (H : Heap) (F : List DiffFn) (S : HState)
    (hnd : S.xsyms.Nodup) (hlen : S.x.length = S.xsyms.length)
    (hF : F.length = S.xsyms.length) :
    stateDiffH H F S = some (H ++ [H.readArr S.uloc],
      { S with
        uloc := H.length,
        x := F.map (fun f => f (H ++ [H.readArr S.uloc]) S) }) := by
  show (if F.length ≠ S.xsyms.length then none
    else some ((cloneH H S).1,
      (F.zip S.xsyms).foldl
        (fun d fs => d.xEqual fs.2 (fs.1 (cloneH H S).1 S)) (cloneH H S).2)) = _
  rw [if_neg (show ¬ F.length ≠ S.xsyms.length from fun h => h hF)]
  have hfold := foldl_xEqual_zip (H ++ [H.readArr S.uloc]) S F S.xsyms [] [] S.x
    { S with uloc := H.length } (by simp) (by simp) (by simp)
    (by simp [hlen]) (by simp [hF]) (by simpa using hnd)
  unfold cloneH
  rw [hfold]
  simp

/-- C10: CloneBlank returns a state with the same X and U symbol tables (and
therefore the same ordinal ordering), a zeroed X vector of the same length,
time stamp t, and an independent fresh copy of the U vector: a new backing
array holding the same values, at a location distinct from the source state
and leaving all existing arrays untouched. -/
theorem C10_cloneBlank (H : Heap) (s : HState) (t : ℚ) (hwf : s.uloc < H.length) :
    ((cloneBlankH H s t).2.xsyms = s.xsyms)
    ∧ ((cloneBlankH H s t).2.usyms = s.usyms)
    ∧ ((cloneBlankH H s t).2.x = List.replicate s.x.length 0)
    ∧ ((cloneBlankH H s t).2.time = t)
    ∧ ((cloneBlankH H s t).1.readArr (cloneBlankH H s t).2.uloc = H.readArr s.uloc)
    ∧ ((cloneBlankH H s t).2.uloc ≠ s.uloc)
    ∧ (∀ l, l < H.length → (cloneBlankH H s t).1.readArr l = H.readArr l) := by
  refine ⟨rfl, rfl, rfl, rfl, readArr_append_self H _, by show H.length ≠ s.uloc; omega,
    fun l hl => readArr_append_left H _ l hl⟩

/-- C10 witness: CloneBlank of a concrete one-variable state. -/
theorem C10_cloneBlank_witness :
    (HState.mk ["a"] [(3 : ℚ)] ["u"] 0 5).uloc < ([[(1 : ℚ), 2]] : Heap).length
    ∧ (cloneBlankH [[(1 : ℚ), 2]] (HState.mk ["a"] [(3 : ℚ)] ["u"] 0 5) 7).2.uloc ≠ 0 :=
  ⟨by decide, (C10_cloneBlank [[(1 : ℚ), 2]] (HState.mk ["a"] [(3 : ℚ)] ["u"] 0 5) 7
    (by decide)).2.2.2.2.2.1⟩

/-- C7: StateDiff fails (panics) exactly when the number of Diff functions
differs from the number of X symbols of S; otherwise it returns a state with
unchanged time stamp, the same U values (through a freshly copied backing
array), and X value F[i](S) for the i-th symbol in the symbol order of S.
The input S is not mutated: S is passed by value and the frame clause shows
every previously existing heap array is untouched. -/
theorem C7_stateDiff (H : Heap) (F : List DiffFn) (S : HState)
    (hnd : S.xsyms.Nodup) (hlen : S.x.length = S.xsyms.length) :
    (stateDiffH H F S = none ↔ F.length ≠ S.xsyms.length)
    ∧ (F.length = S.xsyms.length →
        ∃ D : HState, stateDiffH H F S = some (H ++ [H.readArr S.uloc], D)
          ∧ D.time = S.time ∧ D.usyms = S.usyms ∧ D.xsyms = S.xsyms
          ∧ (H ++ [H.readArr S.uloc]).readArr D.uloc = H.readArr S.uloc
          ∧ (∀ l, l < H.length → (H ++ [H.readArr S.uloc]).readArr l = H.readArr l)
          ∧ D.x = F.map (fun f => f (H ++ [H.readArr S.uloc]) S)) := by
  constructor
  · constructor
    · intro h
      by_contra hcon
      rw [stateDiffH_eq H F S hnd hlen hcon] at h
      exact Option.noConfusion h
    · intro hne
      simp [stateDiffH, hne]
  · intro hF
    refine ⟨_, stateDiffH_eq H F S hnd hlen hF, rfl, rfl, rfl,
      readArr_append_self H _, fun l hl => readArr_append_left H _ l hl, rfl⟩

/-- C7 witness: StateDiff on a concrete two-variable state with a
time-reading Diff function. -/
theorem C7_stateDiff_witness :
    (["a", "b"] : List Symbol).Nodup
    ∧ ∃ D : HState,
        stateDiffH [[]] [fun _ s => s.timeGo, fun _ _ => (10 : ℚ)]
            (HState.mk ["a", "b"] [1, 2] [] 0 3) = some ([[], []], D)
        ∧ D.time = 3 ∧ D.x = [3, 10] := by
  refine ⟨by decide, ?_⟩
  obtain ⟨D, h1, h2, _, _, _, _, h7⟩ :=
    (C7_stateDiff [[]] [fun _ s => s.timeGo, fun _ _ => (10 : ℚ)]
      (HState.mk ["a", "b"] [1, 2] [] 0 3) (by decide) (by decide)).2 (by decide)
  exact ⟨D, h1, h2, h7⟩

/-! Helper evaluation lemmas for the arithmetic operations. -/

theorem addScaledToH_eq (dst y : HState) (al : ℚ) (sx : HState)
    (h1 : dst.x.length = y.x.length) (h2 : y.x.length = sx.x.length) :
    addScaledToH dst y al sx
      = some { dst with x := y.x.zipWith (fun a b => a + al * b) sx.x } := by
  unfold addScaledToH
  rw [if_pos ⟨h1, h2⟩]

theorem addH_eq (dst sx : HState) (h1 : dst.x.length = sx.x.length) :
    addH dst sx = some { dst with x := dst.x.zipWith (fun a b => a + b) sx.x } := by
  unfold addH
  rw [if_pos h1]

theorem addScaledH_eq (dst : HState) (al : ℚ) (sx : HState)
    (h1 : dst.x.length = sx.x.length) :
    addScaledH dst al sx
      = some { dst with x := dst.x.zipWith (fun a b => a + al * b) sx.x } := by
  unfold addScaledH
  rw [if_pos h1]

theorem getD_zipWith (f : ℚ → ℚ → ℚ) (l1 l2 : List ℚ) (i : ℕ)
    (h1 : i < l1.length) (h2 : i < l2.length) :
    (List.zipWith f l1 l2).getD i 0 = f (l1.getD i 0) (l2.getD i 0) := by
  induction l1 generalizing l2 i with
  | nil => exact absurd h1 (by simp)
  | cons a t ih =>
    cases l2 with
    | nil => exact absurd h2 (by simp)
    | cons b t2 =>
      cases i with
      | zero => rfl
      | succ m =>
        exact ih t2 m (by simpa using h1) (by simpa using h2)

/-- Congruence for Diff evaluation vectors: a Diff function sees only the Go
State value passed to it (the x vector, the time stamp, the symbol tables
and, through the heap, the contents of its u vector); the embedded stage
states differ from the textbook stage states only in the location of their
freshly copied u array, whose contents agree. -/
theorem diffVec_congr (H : Heap) (F : List DiffFn)
    (hFinv : ∀ f ∈ F, ∀ H₁ s₁ H₂ s₂, s₁.x = s₂.x → s₁.time = s₂.time →
      s₁.xsyms = s₂.xsyms → s₁.usyms = s₂.usyms →
      Heap.readArr H₁ s₁.uloc = Heap.readArr H₂ s₂.uloc → f H₁ s₁ = f H₂ s₂)
    (H₁ : Heap) (s₁ s₂ : HState) (hx : s₁.x = s₂.x) (ht : s₁.time = s₂.time)
    (hxs : s₁.xsyms = s₂.xsyms) (hus : s₁.usyms = s₂.usyms)
    (hu : Heap.readArr H₁ s₁.uloc = Heap.readArr H s₂.uloc) :
    F.map (fun f => f H₁ s₁) = diffVec H F s₂ :=
  List.map_congr_left (fun f hf => hFinv f hf H₁ s₁ H s₂ hx ht hxs hus hu)

/-- StateDiff on a stage state evaluates the Diff vector of the textbook
target state: the stage state carries the same x vector, time stamp, symbol
tables and u contents as the target, differing only in the location of its
freshly copied u array. -/
theorem stateDiffH_stage (H0 H : Heap) (F : List DiffFn) (st tgt : HState)
    (hnd : st.xsyms.Nodup) (hlen : st.x.length = st.xsyms.length)
    (hF : F.length = st.xsyms.length)
    (hFinv : ∀ f ∈ F, ∀ H₁ s₁ H₂ s₂, s₁.x = s₂.x → s₁.time = s₂.time →
      s₁.xsyms = s₂.xsyms → s₁.usyms = s₂.usyms →
      Heap.readArr H₁ s₁.uloc = Heap.readArr H₂ s₂.uloc → f H₁ s₁ = f H₂ s₂)
    (hx : st.x = tgt.x) (ht : st.time = tgt.time)
    (hxs : st.xsyms = tgt.xsyms) (hus : st.usyms = tgt.usyms)
    (hu : Heap.readArr H0 st.uloc = Heap.readArr H tgt.uloc) :
    stateDiffH H0 F st = some (H0 ++ [Heap.readArr H tgt.uloc],
      { st with uloc := H0.length, x := diffVec H F tgt }) := by
  rw [stateDiffH_eq H0 F st hnd hlen hF, hu,
    diffVec_congr H F hFinv (H0 ++ [Heap.readArr H tgt.uloc]) st tgt hx ht hxs hus
      (readArr_append_eq H0 _ st.uloc hu)]

/-- C6: one RK4 sub-step of length h starting at time t evaluates the Diff
map on the four stage states stamped t, t + h/2, t + h/2 and t + h, and the
accepted next state equals the previous state plus h/6 (k1 + 2 k2 + 2 k3 +
k4) in every X component, with time t + h.  The hypothesis on F states that
a Diff function depends only on the Go-visible value of its State argument:
its x vector, its time stamp, its symbol tables and the contents of its u
vector, read through the heap at the state's own location.  Every pure Go
func(state.State) float64 satisfies it, in particular Diff maps that read
the U input vector; the stage states carry freshly copied u arrays with the
contents of the original, making the stage time stamps and values
observable in the equation below. -/
theorem C6_rk4SubStep (H : Heap) (F : List DiffFn) (h : ℚ) (s : HState)
    (hnd : s.xsyms.Nodup) (hlen : s.x.length = s.xsyms.length)
    (hF : F.length = s.xsyms.length)
    (hFinv : ∀ f ∈ F, ∀ H₁ s₁ H₂ s₂, s₁.x = s₂.x → s₁.time = s₂.time →
      s₁.xsyms = s₂.xsyms → s₁.usyms = s₂.usyms →
      Heap.readArr H₁ s₁.uloc = Heap.readArr H₂ s₂.uloc → f H₁ s₁ = f H₂ s₂) :
    ∃ Hf sf, rk4SubStep H F h s = some (Hf, sf)
      ∧ sf.time = s.time + h
      ∧ sf.xsyms = s.xsyms
      ∧ sf.x.length = s.x.length
      ∧ (∀ i, i < s.x.length →
          sf.x.getD i 0 = s.x.getD i 0 + h / 6 *
            ((rk4K1 H F s).getD i 0 + 2 * (rk4K2 H F h s).getD i 0
              + 2 * (rk4K3 H F h s).getD i 0 + (rk4K4 H F h s).getD i 0))
      ∧ (rk4Stage2 H F h s).time = s.time + h / 2
      ∧ (rk4Stage3 H F h s).time = s.time + h / 2
      ∧ (rk4Stage4 H F h s).time = s.time + h := by
  have hk1 : (rk4K1 H F s).length = s.x.length := by
    simp [rk4K1, diffVec, hF, hlen]
  have hk2 : (rk4K2 H F h s).length = s.x.length := by
    simp [rk4K2, diffVec, hF, hlen]
  have hk3 : (rk4K3 H F h s).length = s.x.length := by
    simp [rk4K3, diffVec, hF, hlen]
  have hk4 : (rk4K4 H F h s).length = s.x.length := by
    simp [rk4K4, diffVec, hF, hlen]
  have fcong : (fun (a b : ℚ) => a + (0.5 : ℚ) * h * b)
      = fun a b => a + h / 2 * b := by
    funext a b
    ring
  have hdv : ∀ st : HState, (diffVec H F st).length = s.x.length := by
    intro st
    simp [diffVec, hF, hlen]
  have q1 := readArr_append_eq H _ s.uloc (rfl :
    Heap.readArr H s.uloc = Heap.readArr H s.uloc)
  have q2 := readArr_append_eq _ _ s.uloc q1
  have q3 := readArr_append_eq _ _ s.uloc q2
  have q4 := readArr_append_eq _ _ s.uloc q3
  have q5 := readArr_append_eq _ _ s.uloc q4
  have q6 := readArr_append_eq _ _ s.uloc q5
  have q7 := readArr_append_eq _ _ s.uloc q6
  have p1 := readArr_append_self H (Heap.readArr H s.uloc)
  have p2 := readArr_append_eq _ _ _ p1
  have p3 := readArr_append_eq _ _ _ p2
  have p4 := readArr_append_eq _ _ _ p3
  have g1 := readArr_append_self (H ++ [Heap.readArr H s.uloc])
    (Heap.readArr H s.uloc)
  have g2 := readArr_append_eq _ _ _ g1
  have g3 := readArr_append_eq _ _ _ g2
  have p5 := readArr_append_eq _ _ _ g3
  have w1 := readArr_append_self
    (H ++ [Heap.readArr H s.uloc] ++ [Heap.readArr H s.uloc])
    (Heap.readArr H s.uloc)
  have w2 := readArr_append_eq _ _ _ w1
  have w3 := readArr_append_eq _ _ _ w2
  have p6 := readArr_append_eq _ _ _ w3
  have e_pa : ∀ H0 : Heap, Heap.readArr H0 s.uloc = Heap.readArr H s.uloc →
      stateDiffH H0 F s
      = some (H0 ++ [Heap.readArr H s.uloc],
        HState.mk s.xsyms (diffVec H F s) s.usyms H0.length s.time) :=
    fun H0 hu0 => stateDiffH_stage H0 H F s s hnd hlen hF hFinv rfl rfl rfl rfl hu0
  have e_b1 : ∀ l : ℕ,
      addScaledToH
        (HState.mk s.xsyms (List.replicate s.x.length 0) s.usyms H.length
          (s.time + (0.5 : ℚ) * h))
        s ((0.5 : ℚ) * h)
        (HState.mk s.xsyms (diffVec H F s) s.usyms l s.time)
      = some (HState.mk s.xsyms
          (List.zipWith (fun a b => a + (0.5 : ℚ) * h * b) s.x (diffVec H F s))
          s.usyms H.length (s.time + (0.5 : ℚ) * h)) :=
    fun l => addScaledToH_eq _ _ _ _ (by simp) (by simp [hdv s])
  have hb1x : (List.zipWith (fun a b => a + (0.5 : ℚ) * h * b) s.x (diffVec H F s))
      = (rk4Stage2 H F h s).x := by
    simp only [rk4Stage2, rk4Stage, rk4K1]
    rw [fcong]
  have hb1len : (List.zipWith (fun a b => a + (0.5 : ℚ) * h * b) s.x
      (diffVec H F s)).length = s.xsyms.length := by
    simp [hdv s, hlen]
  have e_pb2 : ∀ H0 : Heap,
      Heap.readArr H0 (List.length H) = Heap.readArr H s.uloc →
      stateDiffH H0 F
      (HState.mk s.xsyms
        (List.zipWith (fun a b => a + (0.5 : ℚ) * h * b) s.x (diffVec H F s))
        s.usyms H.length (s.time + (0.5 : ℚ) * h))
      = some (H0 ++ [Heap.readArr H s.uloc],
        HState.mk s.xsyms (diffVec H F (rk4Stage2 H F h s)) s.usyms H0.length
          (s.time + (0.5 : ℚ) * h)) :=
    fun H0 hu0 => stateDiffH_stage H0 H F _ (rk4Stage2 H F h s) hnd hb1len hF hFinv
      hb1x (by simp [rk4Stage2, rk4Stage]; ring) (by simp [rk4Stage2, rk4Stage])
      (by simp [rk4Stage2, rk4Stage]) hu0
  have e_c1 : ∀ l : ℕ,
      addScaledToH
        (HState.mk s.xsyms (List.replicate s.x.length 0) s.usyms
          (H ++ [H.readArr s.uloc]).length (s.time + (0.5 : ℚ) * h))
        s ((0.5 : ℚ) * h)
        (HState.mk s.xsyms (diffVec H F (rk4Stage2 H F h s)) s.usyms l
          (s.time + (0.5 : ℚ) * h))
      = some (HState.mk s.xsyms
          (List.zipWith (fun a b => a + (0.5 : ℚ) * h * b) s.x
            (diffVec H F (rk4Stage2 H F h s)))
          s.usyms (H ++ [H.readArr s.uloc]).length (s.time + (0.5 : ℚ) * h)) :=
    fun l => addScaledToH_eq _ _ _ _ (by simp) (by simp [hdv])
  have hc1x : (List.zipWith (fun a b => a + (0.5 : ℚ) * h * b) s.x
      (diffVec H F (rk4Stage2 H F h s))) = (rk4Stage3 H F h s).x := by
    simp only [rk4Stage3, rk4Stage, rk4K2]
    rw [fcong]
  have hc1len : (List.zipWith (fun a b => a + (0.5 : ℚ) * h * b) s.x
      (diffVec H F (rk4Stage2 H F h s))).length = s.xsyms.length := by
    simp [hdv, hlen]
  have e_pc2 : ∀ H0 : Heap,
      Heap.readArr H0 (H ++ [H.readArr s.uloc]).length = Heap.readArr H s.uloc →
      stateDiffH H0 F
      (HState.mk s.xsyms
        (List.zipWith (fun a b => a + (0.5 : ℚ) * h * b) s.x
          (diffVec H F (rk4Stage2 H F h s)))
        s.usyms (H ++ [H.readArr s.uloc]).length (s.time + (0.5 : ℚ) * h))
      = some (H0 ++ [Heap.readArr H s.uloc],
        HState.mk s.xsyms (diffVec H F (rk4Stage3 H F h s)) s.usyms H0.length
          (s.time + (0.5 : ℚ) * h)) :=
    fun H0 hu0 => stateDiffH_stage H0 H F _ (rk4Stage3 H F h s) hnd hc1len hF hFinv
      hc1x (by simp [rk4Stage3, rk4Stage]; ring) (by simp [rk4Stage3, rk4Stage])
      (by simp [rk4Stage3, rk4Stage]) hu0
  have e_d1 : ∀ l : ℕ,
      addScaledToH
        (HState.mk s.xsyms (List.replicate s.x.length 0) s.usyms
          (H ++ [H.readArr s.uloc] ++ [H.readArr s.uloc]).length
          (s.time + h))
        s h
        (HState.mk s.xsyms (diffVec H F (rk4Stage3 H F h s)) s.usyms l
          (s.time + (0.5 : ℚ) * h))
      = some (HState.mk s.xsyms
          (List.zipWith (fun a b => a + h * b) s.x (diffVec H F (rk4Stage3 H F h s)))
          s.usyms
          (H ++ [H.readArr s.uloc] ++ [H.readArr s.uloc]).length
          (s.time + h)) :=
    fun l => addScaledToH_eq _ _ _ _ (by simp) (by simp [hdv])
  have hd1x : (List.zipWith (fun a b => a + h * b) s.x
      (diffVec H F (rk4Stage3 H F h s))) = (rk4Stage4 H F h s).x := by
    simp only [rk4Stage4, rk4Stage, rk4K3]
  have hd1len : (List.zipWith (fun a b => a + h * b) s.x
      (diffVec H F (rk4Stage3 H F h s))).length = s.xsyms.length := by
    simp [hdv, hlen]
  have e_pd2 : ∀ H0 : Heap,
      Heap.readArr H0 (H ++ [H.readArr s.uloc] ++ [H.readArr s.uloc]).length
        = Heap.readArr H s.uloc →
      stateDiffH H0 F
      (HState.mk s.xsyms
        (List.zipWith (fun a b => a + h * b) s.x (diffVec H F (rk4Stage3 H F h s)))
        s.usyms
        (H ++ [H.readArr s.uloc] ++ [H.readArr s.uloc]).length
        (s.time + h))
      = some (H0 ++ [Heap.readArr H s.uloc],
        HState.mk s.xsyms (diffVec H F (rk4Stage4 H F h s)) s.usyms H0.length
          (s.time + h)) :=
    fun H0 hu0 => stateDiffH_stage H0 H F _ (rk4Stage4 H F h s) hnd hd1len hF hFinv
      hd1x (by simp [rk4Stage4, rk4Stage]) (by simp [rk4Stage4, rk4Stage])
      (by simp [rk4Stage4, rk4Stage]) hu0
  have e_a2 : ∀ l1 l2 : ℕ,
      addH (HState.mk s.xsyms (diffVec H F s) s.usyms l1 s.time)
        (HState.mk s.xsyms (diffVec H F (rk4Stage4 H F h s)) s.usyms l2 (s.time + h))
      = some (HState.mk s.xsyms
          (List.zipWith (fun a b => a + b) (diffVec H F s)
            (diffVec H F (rk4Stage4 H F h s)))
          s.usyms l1 s.time) :=
    fun l1 l2 => addH_eq _ _ (by simp [hdv])
  have e_b2 : ∀ l1 l2 : ℕ,
      addH (HState.mk s.xsyms (diffVec H F (rk4Stage2 H F h s)) s.usyms l1
          (s.time + (0.5 : ℚ) * h))
        (HState.mk s.xsyms (diffVec H F (rk4Stage3 H F h s)) s.usyms l2
          (s.time + (0.5 : ℚ) * h))
      = some (HState.mk s.xsyms
          (List.zipWith (fun a b => a + b) (diffVec H F (rk4Stage2 H F h s))
            (diffVec H F (rk4Stage3 H F h s)))
          s.usyms l1 (s.time + (0.5 : ℚ) * h)) :=
    fun l1 l2 => addH_eq _ _ (by simp [hdv])
  have e_a3 : ∀ l1 l2 : ℕ,
      addScaledH
        (HState.mk s.xsyms
          (List.zipWith (fun a b => a + b) (diffVec H F s)
            (diffVec H F (rk4Stage4 H F h s)))
          s.usyms l1 s.time) 2
        (HState.mk s.xsyms
          (List.zipWith (fun a b => a + b) (diffVec H F (rk4Stage2 H F h s))
            (diffVec H F (rk4Stage3 H F h s)))
          s.usyms l2 (s.time + (0.5 : ℚ) * h))
      = some (HState.mk s.xsyms
          (List.zipWith (fun a b => a + 2 * b)
            (List.zipWith (fun a b => a + b) (diffVec H F s)
              (diffVec H F (rk4Stage4 H F h s)))
            (List.zipWith (fun a b => a + b) (diffVec H F (rk4Stage2 H F h s))
              (diffVec H F (rk4Stage3 H F h s))))
          s.usyms l1 s.time) :=
    fun l1 l2 => addScaledH_eq _ _ _ (by simp [hdv])
  have e_next : ∀ l1 l2 : ℕ,
      addScaledH (HState.mk s.xsyms s.x s.usyms l1 s.time) (h * (1 / 6 : ℚ))
        (HState.mk s.xsyms
          (List.zipWith (fun a b => a + 2 * b)
            (List.zipWith (fun a b => a + b) (diffVec H F s)
              (diffVec H F (rk4Stage4 H F h s)))
            (List.zipWith (fun a b => a + b) (diffVec H F (rk4Stage2 H F h s))
              (diffVec H F (rk4Stage3 H F h s))))
          s.usyms l2 s.time)
      = some (HState.mk s.xsyms
          (List.zipWith (fun a b => a + h * (1 / 6 : ℚ) * b) s.x
            (List.zipWith (fun a b => a + 2 * b)
              (List.zipWith (fun a b => a + b) (diffVec H F s)
                (diffVec H F (rk4Stage4 H F h s)))
              (List.zipWith (fun a b => a + b) (diffVec H F (rk4Stage2 H F h s))
                (diffVec H F (rk4Stage3 H F h s)))))
          s.usyms l1 s.time) :=
    fun l1 l2 => addScaledH_eq _ _ _ (by simp [hdv])
  simp only [rk4SubStep, cloneBlankH, cloneH, HState.setTimeGo,
    q1, q2, q3, q4, q5, q6, q7, p1, p2, p3, p4, g1, g2, g3, p5, w1, w2, w3, p6,
    e_pa, e_b1, e_pb2, e_c1, e_pc2, e_d1, e_pd2, e_a2, e_b2, e_a3, e_next,
    Option.bind_eq_bind, Option.some_bind]
  refine ⟨_, _, rfl, by show h + s.time = s.time + h; ring, rfl, ?_, ?_,
    rfl, rfl, rfl⟩
  · show (List.zipWith (fun a b => a + h * (1 / 6 : ℚ) * b) s.x _).length
      = s.x.length
    simp [hdv]
  · intro i hi
    show (List.zipWith (fun a b => a + h * (1 / 6 : ℚ) * b) s.x
        (List.zipWith (fun a b => a + 2 * b)
          (List.zipWith (fun a b => a + b) (diffVec H F s)
            (diffVec H F (rk4Stage4 H F h s)))
          (List.zipWith (fun a b => a + b) (diffVec H F (rk4Stage2 H F h s))
            (diffVec H F (rk4Stage3 H F h s))))).getD i 0 = _
    rw [getD_zipWith _ _ _ i hi (by simp [hdv]; omega),
      getD_zipWith _ _ _ i (by simp [hdv]; omega) (by simp [hdv]; omega),
      getD_zipWith _ _ _ i (by simp [hdv]; omega) (by simp [hdv]; omega),
      getD_zipWith _ _ _ i (by simp [hdv]; omega) (by simp [hdv]; omega)]
    simp only [rk4K1, rk4K2, rk4K3, rk4K4]
    ring

/-- C6 witness: one RK4 sub-step of a concrete one-variable simulation whose
Diff function reads the U input vector through the heap (the pure-input
system theta-dot = u of the repository's tests). -/
theorem C6_rk4SubStep_witness :
    (["a"] : List Symbol).Nodup
    ∧ ∃ Hf sf, rk4SubStep [[(5 : ℚ)]]
        [fun Hp st => (Heap.readArr Hp st.uloc).getD 0 0] 1
        (HState.mk ["a"] [0] ["u"] 0 0) = some (Hf, sf) ∧ sf.time = 0 + 1 := by
  refine ⟨by decide, ?_⟩
  obtain ⟨Hf, sf, h1, h2, -⟩ := C6_rk4SubStep [[(5 : ℚ)]]
    [fun Hp st => (Heap.readArr Hp st.uloc).getD 0 0] 1
    (HState.mk ["a"] [0] ["u"] 0 0) (by decide) (by decide) (by decide)
    (fun f hf H₁ s₁ H₂ s₂ hx ht hxs hus hu => by
      have hfe : f = fun Hp st => (Heap.readArr Hp st.uloc).getD 0 0 :=
        List.mem_singleton.mp hf
      subst hfe
      show (Heap.readArr H₁ s₁.uloc).getD 0 0 = (Heap.readArr H₂ s₂.uloc).getD 0 0
      rw [hu])
  exact ⟨Hf, sf, h1, h2⟩

/-- uEqual keeps the location of the u backing array and writes only to it. -/
theorem uEqual_uloc (H : Heap) (s : HState) (sym : Symbol) (v : ℚ) :
    (HState.uEqual H s sym v).2.uloc = s.uloc := by
  unfold HState.uEqual
  cases idxOf s.usyms sym <;> rfl

theorem uEqual_frame (H : Heap) (s : HState) (sym : Symbol) (v : ℚ)
    (l : ℕ) (hl : l ≠ s.uloc) :
    (HState.uEqual H s sym v).1.readArr l = H.readArr l := by
  unfold HState.uEqual
  cases idxOf s.usyms sym with
  | none => exact readArr_writeArr_ne H s.uloc l _ hl
  | some i => exact readArr_writeArr_ne H s.uloc l _ hl

/-- setInputs keeps the live state sharing its u array and writes only to
that array. -/
theorem setInputsH_spec (ins : List (Symbol × DiffFn)) :
    ∀ (H : Heap) (s : HState), ((setInputsH H ins s).2.uloc = s.uloc)
      ∧ (∀ l, l ≠ s.uloc → (setInputsH H ins s).1.readArr l = H.readArr l) := by
  induction ins with
  | nil => exact fun H s => ⟨rfl, fun l _ => rfl⟩
  | cons a t ih =>
    intro H s
    have hstep : setInputsH H (a :: t) s
        = setInputsH (HState.uEqual H s a.1 (a.2 H s)).1
            t (HState.uEqual H s a.1 (a.2 H s)).2 := rfl
    obtain ⟨ih1, ih2⟩ := ih (HState.uEqual H s a.1 (a.2 H s)).1
      (HState.uEqual H s a.1 (a.2 H s)).2
    constructor
    · rw [hstep, ih1, uEqual_uloc]
    · intro l hl
      rw [hstep, ih2 l (by rw [uEqual_uloc]; exact hl), uEqual_frame H s _ _ l hl]

/-- C3 amended: after the solver sub-states are appended, the live state
shares its u backing array with the most recently appended result; the
setInputs recomputation therefore mutates the U values of that last stored
result, while every other heap array, every earlier stored result struct and
every X vector are left unchanged. -/
theorem C3_beginTail_amended (H : Heap) (sim : Sim) (states : List HState) :
    ((beginTail H sim states).2.results = sim.results ++ states.tail)
    ∧ ((beginTail H sim states).2.state.uloc = (states.getLastD sim.state).uloc)
    ∧ (∀ l, l ≠ (states.getLastD sim.state).uloc →
        (beginTail H sim states).1.readArr l = H.readArr l) := by
  obtain ⟨h1, h2⟩ := setInputsH_spec sim.inputs H (states.getLastD sim.state)
  exact ⟨rfl, h1, h2⟩

/-- C3 amended witness: the frame property at a concrete one-step run. -/
theorem C3_beginTail_amended_witness :
    (0 : ℕ) ≠ (([HState.mk ["x"] [1] ["u"] 1 1].getLastD
        (HState.mk ["x"] [0] ["u"] 0 0)).uloc)
    ∧ (beginTail [[(5 : ℚ)], [5]]
        (Sim.mk ⟨0, 1, 1, 1⟩ (HState.mk ["x"] [0] ["u"] 0 0) 0
          [HState.mk ["x"] [0] ["u"] 0 0] [] [] [("u", fun _ st => st.timeGo)]
          true "time" 1 true)
        [HState.mk ["x"] [1] ["u"] 1 1]).1.readArr 0
      = Heap.readArr [[(5 : ℚ)], [5]] 0 :=
  ⟨by decide, (C3_beginTail_amended [[(5 : ℚ)], [5]]
      (Sim.mk ⟨0, 1, 1, 1⟩ (HState.mk ["x"] [0] ["u"] 0 0) 0
        [HState.mk ["x"] [0] ["u"] 0 0] [] [] [("u", fun _ st => st.timeGo)]
        true "time" 1 true)
      [HState.mk ["x"] [1] ["u"] 1 1]).2.2 0 (by decide)⟩

/-- C3 counterexample: the sub-state appended to the result history carries
U value 5 at append time, but after setInputs runs on the live state the
same stored result reads U value 1: the stored result and the live state
share one mutable backing array, so mutation of the live state does change
a stored result. -/
theorem C3_counterexample :
    (c3mid.map (fun p => HState.uRead p.1 (p.2.getLastD c3state) "u")
      = some (some 5))
    ∧ (c3run.map (fun p => p.2.results.getLastD c3state)
        = c3mid.map (fun p => p.2.getLastD c3state))
    ∧ (c3run.map (fun p => HState.uRead p.1 (p.2.results.getLastD c3state) "u")
        = some (some 1))
    ∧ (c3run.map
        (fun p => decide (p.2.state.uloc = (p.2.results.getLastD c3state).uloc))
      = some true)
    ∧ ((5 : ℚ) ≠ 1) := by
  norm_num [c3run, c3mid, c3state, c3sim, beginIteration, beginTail,
    rk4SolverH, rk4Loop, rk4SubStep, stateDiffH, cloneH, cloneBlankH,
    addScaledToH, addH, addScaledH, setInputsH, HState.uEqual, HState.xEqual,
    HState.uRead, HState.timeGo, HState.setTimeGo, Heap.readArr, Heap.writeArr,
    idxOf, seqDiffs, List.getLastD]

/-- C9: calling Begin on a simulation whose result history is non-empty
fails before any stepping: a previous run leaves results behind and
verifyPreBegin aborts (at its results check, or at an earlier check), so the
driver loop is never entered and the history is never reset. -/
theorem C9_begin_rerun (fuel : ℕ) (H : Heap) (sim : Sim)
    (hres : sim.results ≠ []) : beginH fuel H sim = none := by
  have hlen : ({ sim with state := (setInputsH H sim.inputs sim.state).2 }
      : Sim).results.length > 0 := by
    simpa using List.length_pos.mpr hres
  simp only [beginH, verifyPreBeginH]
  cases hc : verifyConfig { sim with state := (setInputsH H sim.inputs sim.state).2 } with
  | none => simp [hc]
  | some u =>
    cases hv : verifySim { sim with state := (setInputsH H sim.inputs sim.state).2 } with
    | none => simp [hc, hv]
    | some v => simp [hc, hv, hlen]

/-- C9 witness: a simulation that already holds one result. -/
theorem C9_begin_rerun_witness :
    ([c3state] ≠ ([] : List HState))
    ∧ beginH 0 []
        (Sim.mk ⟨0, 1, 1, 1⟩ c3state 0 [c3state] [] [] [] true "time" 1 true)
      = none :=
  ⟨by simp, C9_begin_rerun 0 []
    (Sim.mk ⟨0, 1, 1, 1⟩ c3state 0 [c3state] [] [] [] true "time" 1 true)
    (by simp)⟩

theorem uEqual_xsyms (H : Heap) (s : HState) (sym : Symbol) (v : ℚ) :
    (HState.uEqual H s sym v).2.xsyms = s.xsyms := by
  unfold HState.uEqual
  cases idxOf s.usyms sym <;> rfl

theorem setInputsH_xsyms (ins : List (Symbol × DiffFn)) :
    ∀ (H : Heap) (s : HState), (setInputsH H ins s).2.xsyms = s.xsyms := by
  induction ins with
  | nil => intro H s; rfl
  | cons a t ih =>
    intro H s
    have hstep : setInputsH H (a :: t) s
        = setInputsH (HState.uEqual H s a.1 (a.2 H s)).1
            t (HState.uEqual H s a.1 (a.2 H s)).2 := rfl
    rw [hstep, ih, uEqual_xsyms]

theorem insertSym_perm (a : Symbol) (l : List Symbol) :
    (insertSym a l).Perm (a :: l) := by
  induction l with
  | nil => exact List.Perm.refl _
  | cons b t ih =>
    unfold insertSym
    by_cases hab : a < b
    · rw [if_pos hab]
    · rw [if_neg hab]
      exact (ih.cons b).trans (List.Perm.swap a b t)

theorem sortSyms_perm (l : List Symbol) : (sortSyms l).Perm l := by
  induction l with
  | nil => exact List.Perm.refl _
  | cons a t ih => exact (insertSym_perm a (sortSyms t)).trans (ih.cons a)

theorem buildX_xsyms (src : HState) :
    ∀ (l : List Symbol) (acc r : HState), l.Nodup →
      (∀ sym ∈ l, sym ∉ acc.xsyms) → buildX src l acc = some r →
      r.xsyms = acc.xsyms ++ l := by
  intro l
  induction l with
  | nil =>
    intro acc r _ _ h
    simp only [buildX] at h
    rw [← Option.some.inj h]
    simp
  | cons sym rest ih =>
    intro acc r hnd hfr h
    unfold buildX at h
    cases hx : src.xRead sym with
    | none =>
      rw [hx] at h
      exact Option.noConfusion h
    | some v =>
      rw [hx, Option.some_bind] at h
      have hcreate : acc.xEqual sym v
          = { acc with
              xsyms := acc.xsyms ++ [sym],
              x := (acc.x ++ [0]).set acc.x.length v } := by
        unfold HState.xEqual
        rw [idxOf_eq_none_of_not_mem _ _ (hfr sym (by simp))]
      have hfr2 : ∀ s2 ∈ rest, s2 ∉ (acc.xEqual sym v).xsyms := by
        intro s2 hs2
        rw [hcreate]
        simp only [List.mem_append, List.mem_singleton]
        rintro (hin | heq)
        · exact hfr s2 (List.mem_cons_of_mem sym hs2) hin
        · exact (List.nodup_cons.mp hnd).1 (heq ▸ hs2)
      have hres := ih (acc.xEqual sym v) r (List.nodup_cons.mp hnd).2 hfr2 h
      rw [hres, hcreate]
      simp

theorem buildU_xsyms (src : HState) :
    ∀ (l : List Symbol) (H : Heap) (acc : HState) (H' : Heap) (r : HState),
      buildU src l H acc = some (H', r) → r.xsyms = acc.xsyms := by
  intro l
  induction l with
  | nil =>
    intro H acc H' r h
    simp only [buildU] at h
    have h2 : acc = r := congrArg Prod.snd (Option.some.inj h)
    rw [← h2]
  | cons sym rest ih =>
    intro H acc H' r h
    unfold buildU at h
    cases hr : src.uRead H sym with
    | none =>
      rw [hr] at h
      exact Option.noConfusion h
    | some v =>
      rw [hr, Option.some_bind] at h
      rw [ih _ _ _ _ h, uEqual_xsyms]

/-- orderedState produces the sorted symbol table (a permutation of the
original X symbols). -/
theorem orderedStateH_xsyms (H : Heap) (s : HState) (hnd : s.xsyms.Nodup)
    (H' : Heap) (os : HState) (h : orderedStateH H s = some (H', os)) :
    os.xsyms = sortSyms s.xsyms := by
  unfold orderedStateH at h
  cases hb : buildX s (sortSyms s.xsyms) (stateNewH H).2 with
  | none =>
    rw [hb] at h
    exact Option.noConfusion h
  | some n1 =>
    rw [hb] at h
    simp only [Option.bind_eq_bind, Option.some_bind] at h
    cases hu : buildU s s.usyms (stateNewH H).1 n1 with
    | none =>
      rw [hu] at h
      exact Option.noConfusion h
    | some q =>
      rw [hu] at h
      simp only [Option.bind_eq_bind, Option.some_bind] at h
      have hos : q.2.setTimeGo s.time = os :=
        congrArg Prod.snd (Option.some.inj h)
      have hnds : (sortSyms s.xsyms).Nodup :=
        ((sortSyms_perm s.xsyms).nodup_iff).mpr hnd
      have hn1 : n1.xsyms = (stateNewH H).2.xsyms ++ sortSyms s.xsyms :=
        buildX_xsyms s (sortSyms s.xsyms) (stateNewH H).2 n1 hnds
          (by intro sym _; simp [stateNewH]) hb
      have hq : q.2.xsyms = n1.xsyms :=
        buildU_xsyms s s.usyms (stateNewH H).1 n1 q.1 q.2 (by rw [hu])
      rw [← hos]
      show q.2.xsyms = sortSyms s.xsyms
      rw [hq, hn1]
      simp [stateNewH]

/-- setDiffs panics (index out of range) when the state has more X symbols
than the change map has entries. -/
theorem setDiffsSim_none (s2 : Sim)
    (hgt : s2.state.xsyms.length > s2.change.length) : setDiffsSim s2 = none := by
  unfold setDiffsSim
  rw [if_pos hgt]

/-- C8: when the key set of the Diff map is not exactly the X-symbol set of
the state, Begin fails during pre-run verification, before the driver loop
(and hence any solver call) runs: a key naming a symbol absent from X trips
the NaN consistency probe of verify, and a missing key for some X symbol
makes the Diffs-array fill loop of setDiffs write out of range.  The nodup
hypotheses hold for every Go simulation because map keys and varmap indices
are unique. -/
theorem C8_begin_diff_mismatch (fuel : ℕ) (H : Heap) (sim : Sim)
    (hknd : (sim.change.map Prod.fst).Nodup) (hsnd : sim.state.xsyms.Nodup)
    (hmm : ¬ ∀ sym : Symbol,
      sym ∈ sim.change.map Prod.fst ↔ sym ∈ sim.state.xsyms) :
    beginH fuel H sim = none := by
  have hx : (setInputsH H sim.inputs sim.state).2.xsyms = sim.state.xsyms :=
    setInputsH_xsyms sim.inputs H sim.state
  by_cases hsub : ∀ k ∈ sim.change.map Prod.fst, k ∈ sim.state.xsyms
  · -- every key is an X symbol, so some X symbol has no key:
    -- setDiffs writes out of range (or an earlier check already failed).
    obtain ⟨sym0, hiff⟩ := not_forall.mp hmm
    have hsymx : sym0 ∈ sim.state.xsyms ∧ sym0 ∉ sim.change.map Prod.fst := by
      by_cases hk : sym0 ∈ sim.change.map Prod.fst
      · exact absurd (Iff.intro (fun _ => hsub sym0 hk) (fun _ => hk)) hiff
      · refine ⟨?_, hk⟩
        by_contra hs
        exact hiff (Iff.intro (fun hh => absurd hh hk) (fun hh => absurd hh hs))
    have hlen : (sim.change.map Prod.fst).length < sim.state.xsyms.length := by
      have hsube : ∀ k ∈ sim.change.map Prod.fst,
          k ∈ sim.state.xsyms.erase sym0 := by
        intro k hk
        refine (List.mem_erase_of_ne ?_).mpr (hsub k hk)
        intro he
        rw [he] at hk
        exact hsymx.2 hk
      have hsp := List.Nodup.subperm hknd hsube
      have h1 := hsp.length_le
      rw [List.length_erase_of_mem hsymx.1] at h1
      have h2 : 0 < sim.state.xsyms.length := List.length_pos.mpr
        (fun he => (List.not_mem_nil sym0) (he ▸ hsymx.1))
      omega
    have hlen2 : sim.change.length < sim.state.xsyms.length := by
      simpa using hlen
    simp only [beginH, verifyPreBeginH]
    cases hc : verifyConfig
        { sim with state := (setInputsH H sim.inputs sim.state).2 } with
    | none => simp [hc]
    | some u =>
      cases hv : verifySim
          { sim with state := (setInputsH H sim.inputs sim.state).2 } with
      | none => simp [hc, hv]
      | some v =>
        by_cases hres : sim.results.length > 0
        · simp [hc, hv, hres]
        · by_cases hord : sim.noOrdering = false
          · cases ho : orderedStateH (setInputsH H sim.inputs sim.state).1
                (setInputsH H sim.inputs sim.state).2 with
            | none => simp [hc, hv, hres, hord, ho]
            | some p =>
              have hnd2 : (setInputsH H sim.inputs sim.state).2.xsyms.Nodup := by
                rw [hx]
                exact hsnd
              have hplen : p.2.xsyms.length = sim.state.xsyms.length := by
                rw [orderedStateH_xsyms _ _ hnd2 p.1 p.2 (by rw [ho]),
                  (sortSyms_perm _).length_eq, hx]
              simp [hc, hv, hres, hord, ho]
              intro a b hab
              rw [setDiffsSim_none _
                (by show p.2.xsyms.length > sim.change.length
                    rw [hplen]
                    exact hlen2)] at hab
              simp at hab
          · simp [hc, hv, hres, hord]
            intro a b hab
            rw [setDiffsSim_none _
              (by show (setInputsH H sim.inputs sim.state).2.xsyms.length
                    > sim.change.length
                  rw [hx]
                  exact hlen2)] at hab
            simp at hab
  · -- a key that is not an X symbol trips the NaN consistency probe.
    push_neg at hsub
    obtain ⟨k0, hk0, hk0x⟩ := hsub
    have hver : verifySim
        { sim with state := (setInputsH H sim.inputs sim.state).2 } = none := by
      unfold verifySim
      rw [hx]
      have hall : (sim.change.map Prod.fst).all
          (fun k => decide (k ∈ sim.state.xsyms)) = false :=
        List.all_eq_false.mpr ⟨k0, hk0, by simpa using hk0x⟩
      by_cases h1 : sim.state.xsyms.length = 0
      · rw [if_pos h1]
      · rw [if_neg h1]
        by_cases h2 : sim.tspan.steps = 0
        · rw [if_pos h2]
        · rw [if_neg h2]
          by_cases h3 : sim.solverSet = false
          · rw [if_pos h3]
          · rw [if_neg h3, hall, if_neg (by simp)]
    simp only [beginH, verifyPreBeginH]
    cases hc : verifyConfig
        { sim with state := (setInputsH H sim.inputs sim.state).2 } with
    | none => simp [hc]
    | some u => simp [hc, hver]

/-- C8 witness: a Diff map keyed on y for a state whose only X symbol is x. -/
theorem C8_begin_diff_mismatch_witness :
    ((([("y", fun (_ : Heap) (_ : HState) => (1 : ℚ))]
        : List (Symbol × DiffFn)).map Prod.fst).Nodup)
    ∧ (["x"] : List Symbol).Nodup
    ∧ beginH 0 []
        (Sim.mk ⟨0, 1, 1, 1⟩ (HState.mk ["x"] [0] [] 0 0) 0 []
          [("y", fun _ _ => 1)] [] [] true "time" 1 true)
      = none := by
  refine ⟨by simp, by simp, ?_⟩
  exact C8_begin_diff_mismatch 0 []
    (Sim.mk ⟨0, 1, 1, 1⟩ (HState.mk ["x"] [0] [] 0 0) 0 []
      [("y", fun _ _ => 1)] [] [] true "time" 1 true)
    (by simp) (by simp)
    (fun hall => by
      have h1 := (hall "y").mp (by simp)
      simp at h1)

/-- C1 counterexample: a NewStepLength(3/10) event fired at time 1/2 on the
domain ending at 1 rebuilds the Timespan with end 1/2 + 2 (3/10) = 11/10:
the original domain end 1 is overshot by 1/10, far beyond 1e-12, so the
recomputed Timespan does not keep the original end and the final accepted
sample (taken at the new end) cannot equal the original end. -/
theorem C1_counterexample :
    ((newStepLengthEv (3/10) c1sim).map (fun s2 => s2.tspan.stop)
      = some (11/10))
    ∧ c1sim.tspan.stop = 1
    ∧ ((11 : ℚ)/10 ≠ 1)
    ∧ ¬ (|(11 : ℚ)/10 - 1| ≤ 1/1000000000000) := by
  refine ⟨?_, rfl, by norm_num, by
    rw [abs_of_nonneg (by norm_num : (0 : ℚ) ≤ 11/10 - 1)]
    norm_num⟩
  have hrun : isRunningSim c1sim = true := by
    norm_num [isRunningSim, c1sim, c1state]
  have ht : currentTimeSim c1sim = some (1/2) := by
    simp [currentTimeSim, c1sim, c1state, HState.timeGo]
  have hceil : (⌈((1 : ℚ) - 1/2) / (3/10)⌉ : ℤ) = 2 := by
    rw [show ((1 : ℚ) - 1/2) / (3/10) = 5/3 by norm_num]
    exact Int.ceil_eq_iff.mpr (by constructor <;> norm_num)
  have hts : newTimespan (1/2 : ℚ) ((1/2 : ℚ) + ((2 : ℤ) : ℚ) * (3/10)) 2
      = some ⟨1/2, (1/2 : ℚ) + ((2 : ℤ) : ℚ) * (3/10), 2,
        (((1/2 : ℚ) + ((2 : ℤ) : ℚ) * (3/10)) - 1/2) / ((2 : ℤ) : ℚ)⟩ :=
    newTimespan_pos (by norm_num) (by norm_num)
  rw [newStepLengthEv, if_pos hrun]
  simp only [ht, Option.bind_eq_bind, Option.some_bind,
    show c1sim.tspan.endGo = 1 from rfl, hceil, hts, Option.map_some']
  norm_num

/-- C1 amended: a NewStepLength(h) event fired at current time t rebuilds
the Timespan with exactly ceil((end - t)/h) steps of length exactly h from
t; the new domain end t + ceil((end - t)/h) h never undershoots the
original end and overshoots it by strictly less than h (it equals the
original end only when h divides end - t); with the new timespan the driver
keeps stepping while fewer than ceil((end - t)/h) steps were taken, so the
final accepted sample's time is the new end, not in general the original
end. -/
theorem C1_newStepLength_amended (sim : Sim) (h t : ℚ)
    (hrun : isRunningSim sim = true) (ht : currentTimeSim sim = some t)
    (hh : 0 < h) (hlt : t < sim.tspan.stop) :
    ∃ ts : Timespan, newStepLengthEv h sim = some { sim with tspan := ts }
      ∧ ts.steps = ⌈(sim.tspan.stop - t) / h⌉
      ∧ ts.stepLength = h
      ∧ ts.start = t
      ∧ ts.stop = t + ((⌈(sim.tspan.stop - t) / h⌉ : ℤ) : ℚ) * h
      ∧ sim.tspan.stop ≤ ts.stop
      ∧ ts.stop < sim.tspan.stop + h
      ∧ (∀ k : ℤ, 0 ≤ k →
          (isRunningSim { sim with
              tspan := ts, currentStep := k,
              state := { sim.state with time := t + (k : ℚ) * h } } = true
            ↔ k < ⌈(sim.tspan.stop - t) / h⌉)) := by
  have hq : (0 : ℚ) < (sim.tspan.stop - t) / h :=
    div_pos (sub_pos.mpr hlt) hh
  have hS1 : 1 ≤ ⌈(sim.tspan.stop - t) / h⌉ := Int.ceil_pos.mpr hq
  have hS0 : (0 : ℚ) < ((⌈(sim.tspan.stop - t) / h⌉ : ℤ) : ℚ) := by
    exact_mod_cast lt_of_lt_of_le Int.zero_lt_one hS1
  have hSq : (sim.tspan.stop - t) / h ≤ ((⌈(sim.tspan.stop - t) / h⌉ : ℤ) : ℚ) :=
    Int.le_ceil _
  have hup : ((⌈(sim.tspan.stop - t) / h⌉ : ℤ) : ℚ) < (sim.tspan.stop - t) / h + 1 :=
    Int.ceil_lt_add_one _
  have hse : t < t + ((⌈(sim.tspan.stop - t) / h⌉ : ℤ) : ℚ) * h := by
    nlinarith
  have hstop_le : sim.tspan.stop
      ≤ t + ((⌈(sim.tspan.stop - t) / h⌉ : ℤ) : ℚ) * h := by
    have h1 : ((sim.tspan.stop - t) / h) * h ≤
        ((⌈(sim.tspan.stop - t) / h⌉ : ℤ) : ℚ) * h :=
      mul_le_mul_of_nonneg_right hSq (le_of_lt hh)
    rw [div_mul_cancel₀ _ (ne_of_gt hh)] at h1
    linarith
  have hstop_lt : t + ((⌈(sim.tspan.stop - t) / h⌉ : ℤ) : ℚ) * h
      < sim.tspan.stop + h := by
    have h1 : ((⌈(sim.tspan.stop - t) / h⌉ : ℤ) : ℚ) * h
        < ((sim.tspan.stop - t) / h + 1) * h :=
      mul_lt_mul_of_pos_right hup hh
    rw [add_mul, div_mul_cancel₀ _ (ne_of_gt hh)] at h1
    linarith
  have hlen : ((t + ((⌈(sim.tspan.stop - t) / h⌉ : ℤ) : ℚ) * h) - t)
      / ((⌈(sim.tspan.stop - t) / h⌉ : ℤ) : ℚ) = h := by
    rw [add_sub_cancel_left]
    exact mul_div_cancel_left₀ h (ne_of_gt hS0)
  refine ⟨⟨t, t + ((⌈(sim.tspan.stop - t) / h⌉ : ℤ) : ℚ) * h,
      ⌈(sim.tspan.stop - t) / h⌉,
      ((t + ((⌈(sim.tspan.stop - t) / h⌉ : ℤ) : ℚ) * h) - t)
        / ((⌈(sim.tspan.stop - t) / h⌉ : ℤ) : ℚ)⟩,
    ?_, rfl, hlen, rfl, rfl, hstop_le, hstop_lt, ?_⟩
  · rw [newStepLengthEv, if_pos hrun]
    simp only [ht, Option.bind_eq_bind, Option.some_bind,
      show sim.tspan.endGo = sim.tspan.stop from rfl,
      newTimespan_pos hse hS1, Option.some_bind]
  · intro k hk
    rw [isRunningSim, if_neg (by show ¬ k < 0; omega)]
    rw [decide_eq_true_eq]
    show t + ((⌈(sim.tspan.stop - t) / h⌉ : ℤ) : ℚ) * h
      > (t + (k : ℚ) * h)
        + ((t + ((⌈(sim.tspan.stop - t) / h⌉ : ℤ) : ℚ) * h) - t)
          / ((⌈(sim.tspan.stop - t) / h⌉ : ℤ) : ℚ) * (0.9 : ℚ)
      ↔ k < ⌈(sim.tspan.stop - t) / h⌉
    rw [hlen]
    constructor
    · intro hgt
      by_contra hknot
      have hkS : ⌈(sim.tspan.stop - t) / h⌉ ≤ k := by omega
      have hkSq : ((⌈(sim.tspan.stop - t) / h⌉ : ℤ) : ℚ) ≤ (k : ℚ) := by
        exact_mod_cast hkS
      nlinarith
    · intro hkS
      have hkSq : ((k : ℚ) + 1) ≤ ((⌈(sim.tspan.stop - t) / h⌉ : ℤ) : ℚ) := by
        exact_mod_cast hkS
      nlinarith

/-- C1 amended witness: the concrete event of the counterexample. -/
theorem C1_newStepLength_amended_witness :
    isRunningSim c1sim = true ∧ (0 : ℚ) < 3/10 ∧ (1/2 : ℚ) < c1sim.tspan.stop
    ∧ ∃ ts : Timespan,
        newStepLengthEv (3/10) c1sim = some { c1sim with tspan := ts }
        ∧ ts.stepLength = 3/10 := by
  have hrun : isRunningSim c1sim = true := by
    norm_num [isRunningSim, c1sim, c1state]
  have ht : currentTimeSim c1sim = some (1/2) := by
    simp [currentTimeSim, c1sim, c1state, HState.timeGo]
  refine ⟨hrun, by norm_num, by norm_num [c1sim], ?_⟩
  obtain ⟨ts, h1, _, h3, _, _, _, _, _⟩ :=
    C1_newStepLength_amended c1sim (3/10) (1/2) hrun ht (by norm_num)
      (by norm_num [c1sim])
  exact ⟨ts, h1, h3⟩

/-- C4: in an adaptive RKF45 or Dormand-Prince sub-step the index does not
advance (the sub-step is re-attempted with the strictly smaller new h)
exactly when errRatio is below 1 and the updated step length was not clamped
to the configured minimum; in every other case, including an out-of-tolerance
step whose update lands on the minimum step, the computed state is accepted
and the index advances (the iteration is total: there is no error or
warning path).  Positivity of maxErr models the float division (a zero
error estimate gives an infinite quotient in Go and always accepts). -/
theorem C4_adaptive_rejection (c : AlgCfg) (maxErr : ℝ) (s : RKLoopState)
    (hen : adaptiveEnabled c) (hme : 0 < maxErr) (hh : 0 < s.h) :
    (dpAdaptiveIter c maxErr s = rkf45AdaptiveIter c maxErr s)
    ∧ ((c.errMax / maxErr < 1 ∧ hnewRKF45 c s.h maxErr ≠ c.stepMin) →
        (rkf45AdaptiveIter c maxErr s).idx = s.idx
        ∧ (rkf45AdaptiveIter c maxErr s).h = hnewRKF45 c s.h maxErr
        ∧ hnewRKF45 c s.h maxErr < s.h)
    ∧ (¬ (c.errMax / maxErr < 1 ∧ hnewRKF45 c s.h maxErr ≠ c.stepMin) →
        (rkf45AdaptiveIter c maxErr s).idx = s.idx + 1) := by
  refine ⟨rfl, ?_, ?_⟩
  · rintro ⟨hr1, hne⟩
    have hr0 : 0 < c.errMax / maxErr := div_pos hen.1 hme
    have hpow : (c.errMax / maxErr) ^ (0.2 : ℝ) < 1 :=
      Real.rpow_lt_one (le_of_lt hr0) hr1 (by norm_num)
    have hp0 : (0 : ℝ) ≤ (c.errMax / maxErr) ^ (0.2 : ℝ) :=
      Real.rpow_nonneg (le_of_lt hr0) _
    have hraw : 0.9 * s.h * (c.errMax / maxErr) ^ (0.2 : ℝ) < s.h := by
      nlinarith
    have hlt : hnewRKF45 c s.h maxErr < s.h := by
      by_cases hcase : 0.9 * s.h * (c.errMax / maxErr) ^ (0.2 : ℝ) ≤ c.stepMin
      · exfalso
        apply hne
        unfold hnewRKF45
        rw [max_eq_right hcase, min_eq_left (le_of_lt hen.2.2)]
      · calc hnewRKF45 c s.h maxErr
            ≤ max (0.9 * s.h * (c.errMax / maxErr) ^ (0.2 : ℝ)) c.stepMin :=
              min_le_left _ _
          _ = 0.9 * s.h * (c.errMax / maxErr) ^ (0.2 : ℝ) :=
              max_eq_left (le_of_lt (not_le.mp hcase))
          _ < s.h := hraw
    have hcond : c.errMax / maxErr < 1
        ∧ min (max (0.9 * s.h * (c.errMax / maxErr) ^ (0.2 : ℝ)) c.stepMin)
            c.stepMax ≠ c.stepMin := ⟨hr1, hne⟩
    refine ⟨?_, ?_, hlt⟩
    · unfold rkf45AdaptiveIter
      rw [if_pos hcond]
    · unfold rkf45AdaptiveIter
      rw [if_pos hcond]
      rfl
  · intro hnot
    have hcond : ¬ (c.errMax / maxErr < 1
        ∧ min (max (0.9 * s.h * (c.errMax / maxErr) ^ (0.2 : ℝ)) c.stepMin)
            c.stepMax ≠ c.stepMin) := hnot
    unfold rkf45AdaptiveIter
    rw [if_neg hcond]

/-- C4 witness: a concrete adaptive configuration and loop state. -/
theorem C4_adaptive_rejection_witness :
    adaptiveEnabled ⟨1, 1/2, 10⟩ ∧ (0 : ℝ) < 2
    ∧ (0 : ℝ) < (RKLoopState.mk 0 1 1).h
    ∧ dpAdaptiveIter ⟨1, 1/2, 10⟩ 2 (RKLoopState.mk 0 1 1)
      = rkf45AdaptiveIter ⟨1, 1/2, 10⟩ 2 (RKLoopState.mk 0 1 1) :=
  ⟨⟨by norm_num, by norm_num, by norm_num⟩, by norm_num, by norm_num,
    (C4_adaptive_rejection ⟨1, 1/2, 10⟩ 2 (RKLoopState.mk 0 1 1)
      ⟨by norm_num, by norm_num, by norm_num⟩ (by norm_num) (by norm_num)).1⟩

/-- C5: the step-size update rules.  RKF45 and Dormand-Prince both compute
hNew = clamp(0.9 h ratio^(1/5), stepMin, stepMax) with ratio =
errorTolerance / maxComponentError (the Go source writes the exponent 0.2);
the Fehlberg 7/8 solver instead uses exponent 1/7 with safety factor 0.8,
clamping the scale to [0.125, 4.0] before applying it to h (and the result
to the step bounds).  At error quotient 1 the rules give 0.9 h and 0.8 h:
they genuinely differ. -/
theorem C5_step_update_rules :
    (∀ (c : AlgCfg) (h maxErr : ℝ),
      hnewDormandPrince c h maxErr = hnewRKF45 c h maxErr)
    ∧ (∀ (c : AlgCfg) (h maxErr : ℝ),
        hnewRKF45 c h maxErr
          = specClamp (0.9 * h * (c.errMax / maxErr) ^ ((1 : ℝ)/5))
              c.stepMin c.stepMax)
    ∧ (∀ (c : AlgCfg) (h maxErr : ℝ),
        hnewRKF78 c h maxErr
          = specClamp
              (h * specClamp (0.8 * |(c.errMax / maxErr) ^ ((1 : ℝ)/7)|)
                0.125 4.0)
              c.stepMin c.stepMax)
    ∧ hnewRKF45 ⟨1, 1/10, 10⟩ 1 1 = 0.9
    ∧ hnewRKF78 ⟨1, 1/10, 10⟩ 1 1 = 0.8 := by
  refine ⟨fun c h maxErr => ?_, fun c h maxErr => ?_, fun c h maxErr => rfl,
    ?_, ?_⟩
  · rfl
  · unfold hnewRKF45 specClamp
    rw [show (0.2 : ℝ) = (1 : ℝ)/5 by norm_num]
  · unfold hnewRKF45
    rw [show ((1 : ℝ)/1 : ℝ) = 1 from by norm_num, Real.one_rpow]
    norm_num
  · unfold hnewRKF78
    rw [show ((1 : ℝ)/1 : ℝ) = 1 from by norm_num, Real.one_rpow, abs_one]
    norm_num

end Godesim
